import Mathlib

/-!
Verification of the Curiosity MCP frontend conversation/tool-call
orchestration engine, shallowly embedded from the TypeScript source
(the `Curiosity` class: `tryParseToolCall`, `handleToolCall`,
`handleSendMessage`, `registerTool`, `constructSystemPrompt`).

External platform primitives are modelled explicitly: the structured
decoder (`JSON.parse`) is a parameter `parseJson : String → Option Json`
of the model, the clock (`new Date().toISOString()`) is a string
parameter `now`, and the streaming backend is a function from the full
message history to a stream outcome.
-/

namespace Curiosity

/-- JSON values as produced by the structured decoder. Numbers carry the
textual form the decoder reports (no claim depends on numeric values). -/
inductive Json where
  | null : Json
  | bool (b : Bool) : Json
  | num (lit : String) : Json
  | str (s : String) : Json
  | arr (items : List Json) : Json
  | obj (fields : List (String × Json)) : Json

/-- Roles of conversation turns: the source type `Sender | 'system'`. -/
inductive Role where
  | system
  | user
  | assistant
  | tool
deriving DecidableEq, Repr

/-- One conversation turn, the source interface `Message`. -/
structure Message where
  role : Role
  content : String
deriving DecidableEq, Repr

/-- Tool kinds, the source type `ToolType = 'Action' | 'Query'`. -/
inductive ToolKind where
  | action
  | query
deriving DecidableEq, Repr

/-- A registered capability, the source class `CuriosityTool`. The
`kind` field models the `type` discriminator of `ActionTool` /
`QueryTool`; `exec` models the asynchronous `execute(args)` method,
returning the resolved string or a rejection. -/
structure CuriosityTool where
  name : String
  description : String
  arguments : Option (List (String × String))
  kind : ToolKind
  exec : Option Json → Except Unit String

/-- Outcome of one streamed backend response: either the complete list
of delivered chunks, or the chunks delivered before the stream raised a
failure. -/
inductive StreamOutcome where
  | ok (chunks : List String)
  | fail (delivered : List String)

/-- Observable effects emitted while the orchestrator runs: rendered
chat messages (`displayMessage`), updates and removal of the streamed
message element, backend invocations (`streamMessage`), tool executions
(`tool.execute`), and console warnings. -/
inductive Event where
  | displayMsg (role : Role) (text : String)
  | elementText (text : String)
  | elementRemoved
  | callBackend (history : List Message)
  | execTool (name : String) (args : Option Json)
  | consoleWarn (text : String)

/-- The mutable fields of a `Curiosity` instance that the claims are
about: the registered backend, the tool registry, the base system
prompt field, the accumulated per-tool prompt section, and the
conversation history. -/
structure State where
  aiBackend : Option (List Message → StreamOutcome)
  tools : List CuriosityTool
  basePrompt : String
  toolsPrompt : String
  messages : List Message

/-- Environment parameters abstracting platform primitives: the
structured decoder and the clock. -/
structure Ctx where
  parseJson : String → Option Json
  now : String

/-! ## Substring search (embedding of `String.includes` and the lazy
regex match over the delimiter envelope) -/

/-- Splits `s` at the first occurrence of `pat`: returns the part
strictly before the occurrence and the part strictly after it. Returns
`none` when `pat` does not occur in `s`. -/
def splitFirst (pat : List Char) : List Char → Option (List Char × List Char)
  | [] => if pat.isPrefixOf ([] : List Char) then some ([], []) else none
  | c :: rest =>
    if pat.isPrefixOf (c :: rest) then some ([], (c :: rest).drop pat.length)
    else
      match splitFirst pat rest with
      | some (pre, post) => some (c :: pre, post)
      | none => none

/-- The opening delimiter of the tool-call wire envelope. -/
def OPEN_DELIM : List Char := String.data "[TOOL_REQUEST]"

/-- The closing delimiter of the tool-call wire envelope. -/
def CLOSE_DELIM : List Char := String.data "[END_TOOL_REQUEST]"

/-- Field presence test on a decoded value: the guarded JavaScript
check `json && typeof json === 'object' && 'k' in json`. Only objects
produced by the decoder can carry named fields. -/
def jsonHasField : Json → String → Bool
  | Json.obj fields, k => fields.any (fun f => f.fst == k)
  | _, _ => false

/-- Lookup of a field on a list of decoded object fields. -/
def fieldLookup : List (String × Json) → String → Option Json
  | [], _ => none
  | f :: rest, k => if f.fst == k then some f.snd else fieldLookup rest k

/-- Property read `json.k` on a decoded value. -/
def jsonGetField : Json → String → Option Json
  | Json.obj fields, k => fieldLookup fields k
  | _, _ => none

/-- The structural check of `tryParseToolCall`: the decoded value is a
truthy object containing both the `toolUse` and `toolName` fields. -/
def isToolCallShape (v : Json) : Bool :=
  jsonHasField v "toolUse" && jsonHasField v "toolName"

/-- The whitespace predicate of JavaScript's `String.prototype.trim`:
ASCII whitespace, NBSP, BOM, and the Unicode space separators. -/
def isJsWhitespace (c : Char) : Bool :=
  [9, 10, 11, 12, 13, 32, 160, 5760, 8192, 8193, 8194, 8195, 8196, 8197, 8198,
   8199, 8200, 8201, 8202, 8232, 8233, 8239, 8287, 12288, 65279].contains c.toNat

/-- Embedding of `String.prototype.trim`: strip leading and trailing
whitespace. -/
def jsTrim (s : String) : String :=
  String.mk ((((s.data.dropWhile isJsWhitespace).reverse.dropWhile isJsWhitespace).reverse))

/-- Classification of a final aggregated text, the return type of
`tryParseToolCall`: `plain` models the `null` return, `failed` models
`\x7btoolCallFailed: true\x7d`, `request` carries the decoded object. -/
inductive ToolParseResult where
  | plain
  | failed
  | request (call : Json)

/-- Embedding of `Curiosity.tryParseToolCall`: require both delimiters
to be present, extract the substring between the first opening
delimiter and the next closing delimiter (the lazy regex match), trim
it, treat an empty payload as plain prose, and otherwise classify by
the outcome of the structured decode. -/
def tryParseToolCall (parseJson : String → Option Json) (text : String) : ToolParseResult :=
  if text = "" then ToolParseResult.plain
  else if (splitFirst OPEN_DELIM text.data).isNone then ToolParseResult.plain
  else if (splitFirst CLOSE_DELIM text.data).isNone then ToolParseResult.plain
  else
    match splitFirst OPEN_DELIM text.data with
    | none => ToolParseResult.plain
    | some (_, afterOpen) =>
      match splitFirst CLOSE_DELIM afterOpen with
      | none => ToolParseResult.plain
      | some (inner, _) =>
        let cleaned := jsTrim (String.mk inner)
        if cleaned = "" then ToolParseResult.plain
        else
          match parseJson cleaned with
          | none => ToolParseResult.failed
          | some v => if isToolCallShape v then ToolParseResult.request v else ToolParseResult.failed

/-! ## Serialization helpers (embedding of the `JSON.stringify` calls
and JavaScript string coercion used by the source) -/

/-- Hexadecimal digit for `JSON.stringify` control-character escapes. -/
def hexDigit (n : Nat) : Char :=
  if n < 10 then Char.ofNat (48 + n) else Char.ofNat (87 + n)

/-- Four-digit hexadecimal rendering used in `\u00XX` escapes. -/
def hex4 (n : Nat) : String :=
  String.mk [hexDigit (n / 4096 % 16), hexDigit (n / 256 % 16), hexDigit (n / 16 % 16), hexDigit (n % 16)]

/-- JSON escape of one character, as performed by `JSON.stringify` on
string values. -/
def jsonEscapeChar (c : Char) : String :=
  if c = '"' then "\\\""
  else if c = '\\' then "\\\\"
  else if c = '\n' then "\\n"
  else if c = '\r' then "\\r"
  else if c = '\t' then "\\t"
  else if c = Char.ofNat 8 then "\\b"
  else if c = Char.ofNat 12 then "\\f"
  else if c.toNat < 32 then "\\u" ++ hex4 c.toNat
  else String.singleton c

/-- Embedding of `JSON.stringify` applied to a string value, as in the
tool-result envelope and the usage descriptors. -/
def stringifyString (s : String) : String :=
  "\"" ++ String.join (s.data.map jsonEscapeChar) ++ "\""

/-- Embedding of `JSON.stringify` applied to the declared arguments
object of a tool (a string-to-string mapping, serialized in insertion
order). -/
def stringifyArgsObj (args : List (String × String)) : String :=
  "\x7b" ++ String.intercalate "," (args.map (fun kv => stringifyString kv.fst ++ ":" ++ stringifyString kv.snd)) ++ "\x7d"

mutual

/-- JavaScript string coercion of a decoded value, used only to render
the tool name inside the not-found notice. -/
def jsStringOf : Json → String
  | Json.null => "null"
  | Json.bool true => "true"
  | Json.bool false => "false"
  | Json.num lit => lit
  | Json.str s => s
  | Json.obj _ => "[object Object]"
  | Json.arr items => String.intercalate "," (jsStringItems items)

/-- Array element coercion for `Array.prototype.toString`: null
elements render as the empty string. -/
def jsStringItems : List Json → List String
  | [] => []
  | Json.null :: rest => "" :: jsStringItems rest
  | v :: rest => jsStringOf v :: jsStringItems rest

end

/-- JavaScript string coercion of a possibly absent property. -/
def jsDisplay : Option Json → String
  | none => "undefined"
  | some v => jsStringOf v

/-! ## Prompt builder (embedding of `constructSystemPrompt`,
`registerTool` and the prompt field initializers) -/

/-- The fixed tool-usage instructional section, the source field
`#toolUsagePromptSection`. -/
def toolUsagePromptSection : String :=
  "\n<tool-usage>If you have access to any tools, you can use them by including a tool call in your message as given in the <usage> section of each tool. Respond with the JSON object which adheres to the usage guidelines, including the toolUse and toolName properties. Wrap the <usage> section in a [TOOL_REQUEST] tag as shown in the example. Example:\n[TOOL_REQUEST]\x7b\"toolUse\": true, \"toolName\": \"exampleTool\"\x7d[END_TOOL_REQUEST]</tool-usage>"

/-- The literal wire-envelope example serialized into a tool's usage
descriptor: `JSON.stringify` of the usage object, with `args` omitted
when the tool declares none. -/
def usageJson (t : CuriosityTool) : String :=
  match t.arguments with
  | some args =>
      "\x7b\"toolUse\":true,\"toolName\":" ++ stringifyString t.name ++ ",\"args\":" ++ stringifyArgsObj args ++ "\x7d"
  | none => "\x7b\"toolUse\":true,\"toolName\":" ++ stringifyString t.name ++ "\x7d"

/-- The usage descriptor appended for one registered tool, the
template literal built inside `registerTool`. -/
def toolDefinition (t : CuriosityTool) : String :=
  "\n<tool>\n<name>" ++ t.name ++ "</name>\n<description>" ++ t.description
    ++ "</description>\n<usage>\n[TOOL_REQUEST]" ++ usageJson t ++ "[END_TOOL_REQUEST]\n</usage>"

/-- Embedding of `constructSystemPrompt`: the base prompt, then (only
when at least one tool is registered) the usage section followed by the
accumulated per-tool descriptors, then the timestamp marker. -/
def constructSystemPrompt (st : State) (now : String) : String :=
  (if st.tools.length > 0 then st.basePrompt ++ toolUsagePromptSection ++ st.toolsPrompt else st.basePrompt)
    ++ "<today>" ++ now ++ "</today>"

/-- The public `systemPrompt` getter, which recomputes the prompt on
every call. -/
def systemPromptGet (st : State) (now : String) : String :=
  constructSystemPrompt st now

/-- Warning text emitted on a duplicate registration. -/
def dupWarnMsg (name : String) : String :=
  "Curiosity Warning: A tool with the name \"" ++ name ++ "\" is already registered."

/-- Embedding of `registerTool`: a duplicate name is a no-op apart
from a console warning; otherwise the tool is appended to the registry
and its descriptor appended to the tools prompt section. -/
def registerTool (st : State) (t : CuriosityTool) : State × List Event :=
  if st.tools.any (fun t0 => t0.name == t.name) then
    (st, [Event.consoleWarn (dupWarnMsg t.name)])
  else
    ({ st with tools := st.tools ++ [t], toolsPrompt := st.toolsPrompt ++ toolDefinition t }, [])

/-- Embedding of `registerAIBackend`. -/
def registerAIBackend (st : State) (b : List Message → StreamOutcome) : State :=
  { st with aiBackend := some b }

/-- The state of a freshly constructed `Curiosity` instance: no
backend, no tools, empty history, and the base prompt built from the
optional custom system prompt (the usage section is empty at
construction time because no tool is registered yet). -/
def initState (customPrompt : Option String) : State :=
  { aiBackend := none
    tools := []
    basePrompt := "<system-prompt>" ++ customPrompt.getD "You are a helpful assistant." ++ "</system-prompt>"
    toolsPrompt := ""
    messages := [] }

/-! ## Turn orchestrator (embedding of `handleSendMessage` and
`handleToolCall`) -/

/-- Final accumulated response text: the fold of `fullResponse +=
chunk` over the delivered chunks. -/
def joinChunks (chunks : List String) : String :=
  chunks.foldl (fun acc c => acc ++ c) ""

/-- The successive values of `fullResponse` shown in the streamed
message element, one per delivered chunk. -/
def runningTotals (acc : String) : List String → List String
  | [] => []
  | c :: rest => (acc ++ c) :: runningTotals (acc ++ c) rest

/-- Progressive display updates of the streamed message element. -/
def progressEvents (chunks : List String) : List Event :=
  (runningTotals "" chunks).map Event.elementText

/-- The history after the lazy system-turn insertion and the push of
the submitted turn, which is exactly what `streamMessage` receives. -/
def historyAfterSubmit (ctx : Ctx) (st : State) (content : String) (role : Role) : List Message :=
  (if st.messages.isEmpty then [Message.mk Role.system (constructSystemPrompt st ctx.now)] else st.messages)
    ++ [Message.mk role content]

/-- Notice shown when no backend is registered. -/
def noBackendMsg : String := "No AI backend registered."

/-- Notice shown when the fragment stream raises a failure. -/
def streamFailMsg : String := "An error occurred while fetching the response."

/-- The distinct tool-error notice shown for a malformed payload. -/
def malformedNoticeMsg : String :=
  "A tool call was requested by the AI, but it could not be parsed correctly, as the AI responded with a malformed request. Please try again."

/-- Notice shown before a tool executes. -/
def usingToolMsg (name : String) : String := "Using tool: " ++ name ++ "..."

/-- Per-capability error notice shown when a tool's execution fails. -/
def execErrorMsg (name : String) : String := "Error executing tool \"" ++ name ++ "\"."

/-- Notice shown when the requested tool is not registered. -/
def notFoundMsg (toolName : Option Json) : String :=
  "Tool \"" ++ jsDisplay toolName ++ "\" not found."

/-- The `<tool-response>` envelope wrapping a Query tool's serialized
result. -/
def toolResponseEnvelope (result : String) : String :=
  "<tool-response>" ++ stringifyString result ++ "</tool-response>"

/-- The lookup predicate of `handleToolCall`: strict equality between
the tool's registered name and the decoded `toolName` property. -/
def toolNameMatches (call : Json) (t : CuriosityTool) : Bool :=
  match jsonGetField call "toolName" with
  | some (Json.str s) => s == t.name
  | _ => false

/-- Embedding of `handleToolCall`: look the tool up by strict equality
of its name with the decoded `toolName` property, execute it with the
decoded `args` property, and for a successful Query return the
envelope content to resubmit (the source performs the recursive
`handleSendMessage` call at that point; the model returns the content
to its caller, which performs the recursion). -/
def handleToolCall (tools : List CuriosityTool) (call : Json) : List Event × Option String :=
  match tools.find? (toolNameMatches call) with
  | none => ([Event.displayMsg Role.assistant (notFoundMsg (jsonGetField call "toolName"))], none)
  | some t =>
    let args := jsonGetField call "args"
    match t.exec args with
    | Except.error _ =>
        ([Event.displayMsg Role.assistant (usingToolMsg t.name),
          Event.execTool t.name args,
          Event.displayMsg Role.assistant (execErrorMsg t.name)], none)
    | Except.ok result =>
      match t.kind with
      | ToolKind.query =>
          ([Event.displayMsg Role.assistant (usingToolMsg t.name), Event.execTool t.name args],
           some (toolResponseEnvelope result))
      | ToolKind.action =>
          ([Event.displayMsg Role.assistant (usingToolMsg t.name), Event.execTool t.name args], none)

/-- One round of `handleSendMessage`, parameterized by the
continuation used for the automatic Query resubmission: empty content
is a no-op; the submitted turn is rendered when it came from the input
field; without a backend a fixed notice is shown and nothing else
happens; otherwise the system turn is lazily inserted, the submitted
turn appended, the backend streamed, and the aggregated text
classified and dispatched. -/
def sendOnce (ctx : Ctx) (recurse : State → String → State × List Event)
    (st : State) (content : String) (role : Role) (inputNonempty : Bool) : State × List Event :=
  if content = "" then (st, [])
  else
    let ev0 : List Event := if inputNonempty then [Event.displayMsg role content] else []
    match st.aiBackend with
    | none => (st, ev0 ++ [Event.displayMsg Role.assistant noBackendMsg])
    | some backend =>
      let hist := historyAfterSubmit ctx st content role
      let st2 : State := { st with messages := hist }
      match backend hist with
      | StreamOutcome.fail chunks =>
          (st2, ev0 ++ Event.callBackend hist :: progressEvents chunks ++ [Event.elementText streamFailMsg])
      | StreamOutcome.ok chunks =>
        match tryParseToolCall ctx.parseJson (joinChunks chunks) with
        | ToolParseResult.failed =>
            (st2, ev0 ++ Event.callBackend hist :: progressEvents chunks ++ [Event.elementText malformedNoticeMsg])
        | ToolParseResult.request call =>
          match handleToolCall st2.tools call with
          | (evT, none) =>
              (st2, ev0 ++ Event.callBackend hist :: progressEvents chunks ++ Event.elementRemoved :: evT)
          | (evT, some resubmitContent) =>
              let r := recurse st2 resubmitContent
              (r.1, ev0 ++ Event.callBackend hist :: progressEvents chunks ++ Event.elementRemoved :: evT ++ r.2)
        | ToolParseResult.plain =>
            ({ st2 with messages := hist ++ [Message.mk Role.assistant (joinChunks chunks)] },
             ev0 ++ Event.callBackend hist :: progressEvents chunks)

/-- Embedding of `handleSendMessage`. The source recursion (a Query
result resubmits with role `tool` and an empty input field) is bounded
here by explicit fuel; at zero fuel the resubmission is truncated. -/
def handleSendMessage (ctx : Ctx) : Nat → State → String → Role → Bool → State × List Event
  | 0, st, content, role, inputNonempty =>
      sendOnce ctx (fun st2 _ => (st2, [])) st content role inputNonempty
  | Nat.succ f, st, content, role, inputNonempty =>
      sendOnce ctx (fun st2 c2 => handleSendMessage ctx f st2 c2 Role.tool false) st content role inputNonempty

/-- The externally triggerable operations on one `Curiosity`
instance. -/
inductive Op where
  | regTool (t : CuriosityTool)
  | regBackend (b : List Message → StreamOutcome)
  | submit (raw : String) (fuel : Nat)

/-- One externally triggered step: registration, backend registration,
or an operator submission (the send button / Enter key path, which
trims the input and renders it when nonempty). -/
def stepOp (ctx : Ctx) (st : State) : Op → State × List Event
  | Op.regTool t => registerTool st t
  | Op.regBackend b => (registerAIBackend st b, [])
  | Op.submit raw fuel => handleSendMessage ctx fuel st (jsTrim raw) Role.user (raw != "")

/-- Run of a sequence of operations from a state. -/
def runOps (ctx : Ctx) (st : State) : List Op → State
  | [] => st
  | op :: rest => runOps ctx (stepOp ctx st op).1 rest

/-! ## Observation helpers -/

/-- The histories passed to the generation backend, in order. -/
def backendCalls (evs : List Event) : List (List Message) :=
  evs.filterMap (fun e =>
    match e with
    | Event.callBackend h => some h
    | _ => none)

/-- The tool executions performed, in order, with their arguments. -/
def execCalls (evs : List Event) : List (String × Option Json) :=
  evs.filterMap (fun e =>
    match e with
    | Event.execTool n a => some (n, a)
    | _ => none)

/-- Specification-side description of the registry contents: of the
attempted registrations, keep each one whose name was not seen
earlier (first registration wins). -/
def firstRegistrationsAux (seen : List String) : List CuriosityTool → List CuriosityTool
  | [] => []
  | t :: rest =>
    if seen.any (fun s => s == t.name) then firstRegistrationsAux seen rest
    else t :: firstRegistrationsAux (seen ++ [t.name]) rest

/-- Specification-side registry contents after a sequence of
registrations. -/
def firstRegistrations (regs : List CuriosityTool) : List CuriosityTool :=
  firstRegistrationsAux [] regs

/-- Fold of `registerTool` over a sequence of attempted
registrations. -/
def foldRegister (st : State) : List CuriosityTool → State
  | [] => st
  | t :: rest => foldRegister (registerTool st t).1 rest

/-- Concatenation of a list of strings, in order. -/
def joinAll : List String → String
  | [] => ""
  | s :: rest => s ++ joinAll rest

/-- A second tool carrying an already used name, for exercising
duplicate registration. -/
def actionToolClone : CuriosityTool :=
  { name := "doAction"
    description := "Another action"
    arguments := none
    kind := ToolKind.action
    exec := fun _ => Except.ok "" }

/-- Well-formedness of the history: it is empty, or it starts with the
unique system turn immediately followed by the first user turn, and no
later turn is a system turn. -/
def historyWF (ms : List Message) : Prop :=
  ms = [] ∨ ∃ c u rest, ms = Message.mk Role.system c :: Message.mk Role.user u :: rest ∧
    ∀ m ∈ Message.mk Role.user u :: rest, m.role ≠ Role.system

/-! ## Concrete sample material used to exercise the model -/

/-- A sample decoded tool-call object used to instantiate the model's
decoder parameter. -/
def sampleCall : Json :=
  Json.obj [("toolUse", Json.bool true), ("toolName", Json.str "doQuery"),
            ("args", Json.obj [("query", Json.str "info")])]

/-- The textual payload that `sampleDecoder` decodes to `sampleCall`. -/
def sampleInnerText : String :=
  "\x7b\"toolUse\": true, \"toolName\": \"doQuery\", \"args\": \x7b\"query\": \"info\"\x7d\x7d"

/-- A concrete decoder instantiation: decodes exactly the sample
payload. -/
def sampleDecoder : String → Option Json :=
  fun s => if s = sampleInnerText then some sampleCall else none

/-- A complete delimited request text around the sample payload. -/
def sampleRequestText : String :=
  "[TOOL_REQUEST]" ++ sampleInnerText ++ "[END_TOOL_REQUEST]"

/-- A malformed delimited payload. -/
def malformedText : String := "[TOOL_REQUEST]not json[END_TOOL_REQUEST]"

/-- A backend that always answers with the malformed delimited
payload. -/
def malformedBackend : List Message → StreamOutcome :=
  fun _ => StreamOutcome.ok [malformedText]

/-- A backend whose stream fails after one delivered chunk. -/
def failingBackend : List Message → StreamOutcome :=
  fun _ => StreamOutcome.fail ["partia"]

/-- A sample Query tool. -/
def queryTool : CuriosityTool :=
  { name := "doQuery"
    description := "Performs a query"
    arguments := some [("query", "what to look up")]
    kind := ToolKind.query
    exec := fun _ => Except.ok "some data" }

/-- A backend that requests the sample Query tool on the first call
and answers with plain prose once the history holds the tool turn. -/
def queryBackend : List Message → StreamOutcome :=
  fun h =>
    if h.length ≤ 2 then StreamOutcome.ok [sampleRequestText]
    else StreamOutcome.ok ["AI response after query"]

/-- A `Curiosity` instance with the sample Query tool and backend
registered. -/
def queryState : State :=
  registerAIBackend (registerTool (initState none) queryTool).1 queryBackend

/-- A sample Action tool. -/
def actionTool : CuriosityTool :=
  { name := "doAction"
    description := "Performs an action"
    arguments := none
    kind := ToolKind.action
    exec := fun _ => Except.ok "" }

/-- The decoded request for the sample Action tool. -/
def actionCall : Json :=
  Json.obj [("toolUse", Json.bool true), ("toolName", Json.str "doAction"),
            ("args", Json.obj [("payload", Json.str "test")])]

/-- The textual payload that `actionDecoder` decodes to
`actionCall`. -/
def actionInnerText : String :=
  "\x7b\"toolUse\":true,\"toolName\":\"doAction\",\"args\":\x7b\"payload\":\"test\"\x7d\x7d"

/-- A concrete decoder instantiation for the Action sample. -/
def actionDecoder : String → Option Json :=
  fun s => if s = actionInnerText then some actionCall else none

/-- A complete delimited request text for the Action sample. -/
def actionRequestText : String :=
  "[TOOL_REQUEST]" ++ actionInnerText ++ "[END_TOOL_REQUEST]"

/-- A backend that always requests the sample Action tool. -/
def actionBackend : List Message → StreamOutcome :=
  fun _ => StreamOutcome.ok [actionRequestText]

/-- A `Curiosity` instance with the sample Action tool and backend
registered. -/
def actionState : State :=
  registerAIBackend (registerTool (initState none) actionTool).1 actionBackend

/-- A text containing both delimiter tokens but with the closing token
only before the opening token. -/
def c10Text : String := "[END_TOOL_REQUEST] hi [TOOL_REQUEST]"

/-- A backend that always answers with `c10Text`. -/
def c10Backend : List Message → StreamOutcome :=
  fun _ => StreamOutcome.ok [c10Text]

/-! ## Correctness of the first-occurrence split -/

/-- A successful split decomposes the input around the pattern. -/
theorem splitFirst_eq_append (pat : List Char) : ∀ (s pre post : List Char),
    splitFirst pat s = some (pre, post) → s = pre ++ pat ++ post := by
  intro s
  induction s with
  | nil =>
    intro pre post h
    simp only [splitFirst] at h
    split at h
    · rename_i hp
      have hnil : pat = [] := List.prefix_nil.mp (List.isPrefixOf_iff_prefix.mp hp)
      simp only [Option.some.injEq, Prod.mk.injEq] at h
      obtain ⟨rfl, rfl⟩ := h
      simp [hnil]
    · exact absurd h (by simp)
  | cons c rest ih =>
    intro pre post h
    simp only [splitFirst] at h
    split at h
    · rename_i hp
      obtain ⟨t, ht⟩ := List.isPrefixOf_iff_prefix.mp hp
      simp only [Option.some.injEq, Prod.mk.injEq] at h
      obtain ⟨rfl, rfl⟩ := h
      rw [← ht, List.nil_append, List.drop_left]
    · cases hsp : splitFirst pat rest with
      | none => rw [hsp] at h; exact absurd h (by simp)
      | some pr =>
        obtain ⟨pre0, post0⟩ := pr
        rw [hsp] at h
        simp only [Option.some.injEq, Prod.mk.injEq] at h
        obtain ⟨rfl, rfl⟩ := h
        have hr := ih pre0 post0 hsp
        simp [hr]

/-- A successful split finds the first occurrence: the pattern does not
occur at any position strictly inside the prefix part. -/
theorem splitFirst_min (pat : List Char) : ∀ (s pre post : List Char),
    splitFirst pat s = some (pre, post) → ∀ i, i < pre.length → ¬ pat <+: s.drop i := by
  intro s
  induction s with
  | nil =>
    intro pre post h i hi
    simp only [splitFirst] at h
    split at h
    · simp only [Option.some.injEq, Prod.mk.injEq] at h
      obtain ⟨rfl, rfl⟩ := h
      exact absurd hi (by simp)
    · exact absurd h (by simp)
  | cons c rest ih =>
    intro pre post h i hi
    simp only [splitFirst] at h
    split at h
    · simp only [Option.some.injEq, Prod.mk.injEq] at h
      obtain ⟨rfl, rfl⟩ := h
      exact absurd hi (by simp)
    · rename_i hp
      cases hsp : splitFirst pat rest with
      | none => rw [hsp] at h; exact absurd h (by simp)
      | some pr =>
        obtain ⟨pre0, post0⟩ := pr
        rw [hsp] at h
        simp only [Option.some.injEq, Prod.mk.injEq] at h
        obtain ⟨rfl, rfl⟩ := h
        cases i with
        | zero =>
          intro hpre
          exact hp (List.isPrefixOf_iff_prefix.mpr hpre)
        | succ j =>
          have hj : j < pre0.length := by
            simpa using Nat.lt_of_succ_lt_succ hi
          simpa using ih pre0 post0 hsp j hj

/-- A failed split means the pattern occurs nowhere. -/
theorem splitFirst_none_no_occur (pat : List Char) (hpat : pat ≠ []) : ∀ (s : List Char),
    splitFirst pat s = none → ∀ i, ¬ pat <+: s.drop i := by
  intro s
  induction s with
  | nil =>
    intro _ i hpre
    rw [List.drop_nil] at hpre
    exact hpat (List.prefix_nil.mp hpre)
  | cons c rest ih =>
    intro h i
    simp only [splitFirst] at h
    split at h
    · exact absurd h (by simp)
    · rename_i hp
      cases hsp : splitFirst pat rest with
      | some pr => obtain ⟨pre0, post0⟩ := pr; rw [hsp] at h; exact absurd h (by simp)
      | none =>
        cases i with
        | zero =>
          intro hpre
          exact hp (List.isPrefixOf_iff_prefix.mpr hpre)
        | succ j =>
          simpa using ih hsp j

/-- A successful split exhibits an occurrence of the pattern. -/
theorem splitFirst_occur (pat s pre post : List Char)
    (h : splitFirst pat s = some (pre, post)) : pat <+: s.drop pre.length := by
  have hs := splitFirst_eq_append pat s pre post h
  rw [hs, List.append_assoc, List.drop_left]
  exact List.prefix_append pat post

/-- The split succeeds exactly when the pattern occurs somewhere. -/
theorem splitFirst_isSome_iff (pat : List Char) (hpat : pat ≠ []) (s : List Char) :
    (splitFirst pat s).isSome = true ↔ ∃ i, pat <+: s.drop i := by
  constructor
  · intro h
    obtain ⟨pr, hsp⟩ := Option.isSome_iff_exists.mp h
    obtain ⟨pre, post⟩ := pr
    exact ⟨pre.length, splitFirst_occur pat s pre post hsp⟩
  · rintro ⟨i, hi⟩
    cases hsp : splitFirst pat s with
    | some pr => simp
    | none => exact absurd hi (splitFirst_none_no_occur pat hpat s hsp i)

/-- Characterization: a decomposition around the first occurrence of
the pattern is exactly what the split returns. -/
theorem splitFirst_spec (pat : List Char) (hpat : pat ≠ []) (s a post : List Char)
    (hs : s = a ++ pat ++ post)
    (hmin : ∀ i, i < a.length → ¬ pat <+: s.drop i) :
    splitFirst pat s = some (a, post) := by
  have hocc : pat <+: s.drop a.length := by
    rw [hs, List.append_assoc, List.drop_left]
    exact List.prefix_append pat post
  cases hsp : splitFirst pat s with
  | none => exact absurd hocc (splitFirst_none_no_occur pat hpat s hsp a.length)
  | some pr =>
    obtain ⟨pre, post2⟩ := pr
    have heq := splitFirst_eq_append pat s pre post2 hsp
    have hocc2 : pat <+: s.drop pre.length := splitFirst_occur pat s pre post2 hsp
    have hmins := splitFirst_min pat s pre post2 hsp
    have hlen : pre.length = a.length := by
      rcases Nat.lt_trichotomy pre.length a.length with hlt | heq2 | hgt
      · exact absurd hocc2 (hmin pre.length hlt)
      · exact heq2
      · exact absurd hocc (hmins a.length hgt)
    have hpre : pre = a := by
      have h1 : s.take pre.length = pre := by
        rw [heq, List.append_assoc, List.take_left]
      have h2 : s.take a.length = a := by
        rw [hs, List.append_assoc, List.take_left]
      rw [← h1, hlen, h2]
    subst hpre
    have hpost : post2 = post := by
      have h3 : pre ++ pat ++ post2 = pre ++ pat ++ post := by rw [← heq, ← hs]
      exact List.append_cancel_left h3
    rw [hpost]

/-- Transfer of non-occurrence from a suffix: if the pattern occurs
nowhere in `s.drop n`, it occurs at no position at or past `n`. -/
theorem no_occur_from (pat : List Char) (hpat : pat ≠ []) (s : List Char) (n : Nat)
    (h : splitFirst pat (s.drop n) = none) :
    ∀ j, n ≤ j → ¬ pat <+: s.drop j := by
  intro j hj hpre
  have hk : s.drop j = (s.drop n).drop (j - n) := by
    rw [List.drop_drop, Nat.add_sub_cancel' hj]
  rw [hk] at hpre
  exact splitFirst_none_no_occur pat hpat (s.drop n) h (j - n) hpre

/-! ## Extractor classification (claims C1 and C10) -/

/-- The opening delimiter is nonempty. -/
theorem open_delim_ne_nil : OPEN_DELIM ≠ [] := by decide

/-- The closing delimiter is nonempty. -/
theorem close_delim_ne_nil : CLOSE_DELIM ≠ [] := by decide

/-- Reduction of the extractor on the positive path: once both splits
are known, classification depends only on the trimmed payload and its
decode. -/
theorem tryParseToolCall_reduce (p : String → Option Json) (text : String)
    (a afterOpen inner rest : List Char)
    (htext : text ≠ "")
    (hO : splitFirst OPEN_DELIM text.data = some (a, afterOpen))
    (hC : splitFirst CLOSE_DELIM afterOpen = some (inner, rest))
    (hCsome : (splitFirst CLOSE_DELIM text.data).isSome = true) :
    tryParseToolCall p text =
      (if jsTrim (String.mk inner) = "" then ToolParseResult.plain
       else
         match p (jsTrim (String.mk inner)) with
         | none => ToolParseResult.failed
         | some v => if isToolCallShape v then ToolParseResult.request v else ToolParseResult.failed) := by
  obtain ⟨prC, hCval⟩ := Option.isSome_iff_exists.mp hCsome
  unfold tryParseToolCall
  rw [if_neg htext, hO, hCval]
  simp only [Option.isNone_some, Bool.false_eq_true, if_false, hC]

/-- C1: the extractor classifies every final aggregated text exactly
as specified: with either delimiter absent the text is Plain; with
both present, the substring strictly between the first opening
delimiter and the next closing delimiter is extracted and trimmed, an
empty trimmed payload is Plain, a payload whose decode fails or does
not produce an object with both the use-flag and tool-name fields is
Malformed, and any other decode is a Request carrying the decoded
object. -/
theorem extractor_classifies (p : String → Option Json) (text : String) :
    (¬ ((∃ i, OPEN_DELIM <+: text.data.drop i) ∧ (∃ i, CLOSE_DELIM <+: text.data.drop i)) →
      tryParseToolCall p text = ToolParseResult.plain)
    ∧ (∀ a mid b : List Char,
        text.data = a ++ OPEN_DELIM ++ mid ++ CLOSE_DELIM ++ b →
        (∀ i, i < a.length → ¬ OPEN_DELIM <+: text.data.drop i) →
        (∀ k, k < mid.length → ¬ CLOSE_DELIM <+: (mid ++ CLOSE_DELIM ++ b).drop k) →
        (jsTrim (String.mk mid) = "" → tryParseToolCall p text = ToolParseResult.plain)
        ∧ (p (jsTrim (String.mk mid)) = none → jsTrim (String.mk mid) ≠ "" →
            tryParseToolCall p text = ToolParseResult.failed)
        ∧ (∀ v, p (jsTrim (String.mk mid)) = some v → jsTrim (String.mk mid) ≠ "" →
            isToolCallShape v = false → tryParseToolCall p text = ToolParseResult.failed)
        ∧ (∀ v, p (jsTrim (String.mk mid)) = some v → jsTrim (String.mk mid) ≠ "" →
            isToolCallShape v = true → tryParseToolCall p text = ToolParseResult.request v)) := by
  constructor
  · intro h
    unfold tryParseToolCall
    by_cases h0 : text = ""
    · rw [if_pos h0]
    · rw [if_neg h0]
      cases hO : splitFirst OPEN_DELIM text.data with
      | none => simp
      | some prO =>
        cases hC : splitFirst CLOSE_DELIM text.data with
        | none => simp
        | some prC =>
          exfalso
          apply h
          constructor
          · exact (splitFirst_isSome_iff OPEN_DELIM open_delim_ne_nil text.data).mp (by rw [hO]; rfl)
          · exact (splitFirst_isSome_iff CLOSE_DELIM close_delim_ne_nil text.data).mp (by rw [hC]; rfl)
  · intro a mid b hdec hminO hminC
    have htext : text ≠ "" := by
      intro h0
      rw [h0] at hdec
      have hlen := congrArg List.length hdec
      simp [List.length_append] at hlen
      have : OPEN_DELIM.length = 14 := by decide
      omega
    have hO : splitFirst OPEN_DELIM text.data = some (a, mid ++ CLOSE_DELIM ++ b) := by
      refine splitFirst_spec OPEN_DELIM open_delim_ne_nil text.data a (mid ++ CLOSE_DELIM ++ b) ?_ hminO
      rw [hdec]
      simp [List.append_assoc]
    have hC : splitFirst CLOSE_DELIM (mid ++ CLOSE_DELIM ++ b) = some (mid, b) := by
      refine splitFirst_spec CLOSE_DELIM close_delim_ne_nil _ mid b ?_ hminC
      simp [List.append_assoc]
    have hCsome : (splitFirst CLOSE_DELIM text.data).isSome = true := by
      refine (splitFirst_isSome_iff CLOSE_DELIM close_delim_ne_nil text.data).mpr ?_
      refine ⟨(a ++ OPEN_DELIM ++ mid).length, ?_⟩
      have hre : text.data = (a ++ OPEN_DELIM ++ mid) ++ (CLOSE_DELIM ++ b) := by
        rw [hdec]
        simp [List.append_assoc]
      rw [hre, List.drop_left]
      exact List.prefix_append _ _
    have hmain := tryParseToolCall_reduce p text a (mid ++ CLOSE_DELIM ++ b) mid b htext hO hC hCsome
    refine ⟨?_, ?_, ?_, ?_⟩
    · intro hcl
      rw [hmain, if_pos hcl]
    · intro hp hcl
      rw [hmain, if_neg hcl, hp]
    · intro v hp hcl hshape
      rw [hmain, if_neg hcl, hp]
      simp [hshape]
    · intro v hp hcl hshape
      rw [hmain, if_neg hcl, hp]
      simp [hshape]

/-! ## Reduction lemmas for one orchestrator round -/

/-- An empty submission is a no-op. -/
theorem sendOnce_empty (ctx : Ctx) (recurse : State → String → State × List Event)
    (st : State) (role : Role) (inb : Bool) :
    sendOnce ctx recurse st "" role inb = (st, []) := by
  unfold sendOnce
  rw [if_pos rfl]

/-- Without a registered backend, a nonempty submission only renders
the turn and the fixed notice; the state is untouched. -/
theorem sendOnce_noBackend (ctx : Ctx) (recurse : State → String → State × List Event)
    (st : State) (content : String) (role : Role) (inb : Bool)
    (hc : content ≠ "") (hB : st.aiBackend = none) :
    sendOnce ctx recurse st content role inb =
      (st, (if inb then [Event.displayMsg role content] else [])
            ++ [Event.displayMsg Role.assistant noBackendMsg]) := by
  unfold sendOnce
  rw [if_neg hc, hB]

/-- A stream failure leaves the history at the point reached before
the response and ends with the generic failure notice. -/
theorem sendOnce_streamFail (ctx : Ctx) (recurse : State → String → State × List Event)
    (st : State) (content : String) (role : Role) (inb : Bool)
    (B : List Message → StreamOutcome) (chunks : List String)
    (hc : content ≠ "") (hB : st.aiBackend = some B)
    (hout : B (historyAfterSubmit ctx st content role) = StreamOutcome.fail chunks) :
    sendOnce ctx recurse st content role inb =
      ({ st with messages := historyAfterSubmit ctx st content role },
       (if inb then [Event.displayMsg role content] else [])
         ++ Event.callBackend (historyAfterSubmit ctx st content role)
           :: progressEvents chunks ++ [Event.elementText streamFailMsg]) := by
  unfold sendOnce
  rw [if_neg hc, hB]
  simp only [hout]

/-- A plain classification appends exactly one assistant turn holding
the full aggregated text. -/
theorem sendOnce_plain (ctx : Ctx) (recurse : State → String → State × List Event)
    (st : State) (content : String) (role : Role) (inb : Bool)
    (B : List Message → StreamOutcome) (chunks : List String)
    (hc : content ≠ "") (hB : st.aiBackend = some B)
    (hout : B (historyAfterSubmit ctx st content role) = StreamOutcome.ok chunks)
    (hplain : tryParseToolCall ctx.parseJson (joinChunks chunks) = ToolParseResult.plain) :
    sendOnce ctx recurse st content role inb =
      ({ st with messages := historyAfterSubmit ctx st content role
                   ++ [Message.mk Role.assistant (joinChunks chunks)] },
       (if inb then [Event.displayMsg role content] else [])
         ++ Event.callBackend (historyAfterSubmit ctx st content role)
           :: progressEvents chunks) := by
  unfold sendOnce
  rw [if_neg hc, hB]
  simp only [hout, hplain]

/-- A malformed classification shows the distinct tool-error notice
and stops; the history keeps only the turns pushed before the
response. -/
theorem sendOnce_malformed (ctx : Ctx) (recurse : State → String → State × List Event)
    (st : State) (content : String) (role : Role) (inb : Bool)
    (B : List Message → StreamOutcome) (chunks : List String)
    (hc : content ≠ "") (hB : st.aiBackend = some B)
    (hout : B (historyAfterSubmit ctx st content role) = StreamOutcome.ok chunks)
    (hfail : tryParseToolCall ctx.parseJson (joinChunks chunks) = ToolParseResult.failed) :
    sendOnce ctx recurse st content role inb =
      ({ st with messages := historyAfterSubmit ctx st content role },
       (if inb then [Event.displayMsg role content] else [])
         ++ Event.callBackend (historyAfterSubmit ctx st content role)
           :: progressEvents chunks ++ [Event.elementText malformedNoticeMsg]) := by
  unfold sendOnce
  rw [if_neg hc, hB]
  simp only [hout, hfail]

/-- A request classification with no resubmission (unknown tool,
failed execution, or Action tool) dispatches once and stops. -/
theorem sendOnce_request_done (ctx : Ctx) (recurse : State → String → State × List Event)
    (st : State) (content : String) (role : Role) (inb : Bool)
    (B : List Message → StreamOutcome) (chunks : List String) (call : Json) (evT : List Event)
    (hc : content ≠ "") (hB : st.aiBackend = some B)
    (hout : B (historyAfterSubmit ctx st content role) = StreamOutcome.ok chunks)
    (hreq : tryParseToolCall ctx.parseJson (joinChunks chunks) = ToolParseResult.request call)
    (hT : handleToolCall st.tools call = (evT, none)) :
    sendOnce ctx recurse st content role inb =
      ({ st with messages := historyAfterSubmit ctx st content role },
       (if inb then [Event.displayMsg role content] else [])
         ++ Event.callBackend (historyAfterSubmit ctx st content role)
           :: progressEvents chunks ++ Event.elementRemoved :: evT) := by
  unfold sendOnce
  rw [if_neg hc, hB]
  simp only [hout, hreq, hT]

/-- A request classification whose dispatch yields a Query result
resubmits that result through the continuation. -/
theorem sendOnce_request_resubmit (ctx : Ctx) (recurse : State → String → State × List Event)
    (st : State) (content : String) (role : Role) (inb : Bool)
    (B : List Message → StreamOutcome) (chunks : List String) (call : Json)
    (evT : List Event) (c2 : String)
    (hc : content ≠ "") (hB : st.aiBackend = some B)
    (hout : B (historyAfterSubmit ctx st content role) = StreamOutcome.ok chunks)
    (hreq : tryParseToolCall ctx.parseJson (joinChunks chunks) = ToolParseResult.request call)
    (hT : handleToolCall st.tools call = (evT, some c2)) :
    sendOnce ctx recurse st content role inb =
      ((recurse { st with messages := historyAfterSubmit ctx st content role } c2).1,
       (if inb then [Event.displayMsg role content] else [])
         ++ Event.callBackend (historyAfterSubmit ctx st content role)
           :: progressEvents chunks ++ Event.elementRemoved
             :: evT ++ (recurse { st with messages := historyAfterSubmit ctx st content role } c2).2) := by
  unfold sendOnce
  rw [if_neg hc, hB]
  simp only [hout, hreq, hT]

/-- Dispatch lemma: a found Query tool that executes successfully
reports its usage and execution and returns the envelope content to
resubmit. -/
theorem handleToolCall_query_ok (tools : List CuriosityTool) (call : Json)
    (t : CuriosityTool) (result : String)
    (hfind : tools.find? (toolNameMatches call) = some t)
    (hkind : t.kind = ToolKind.query)
    (hexec : t.exec (jsonGetField call "args") = Except.ok result) :
    handleToolCall tools call =
      ([Event.displayMsg Role.assistant (usingToolMsg t.name),
        Event.execTool t.name (jsonGetField call "args")],
       some (toolResponseEnvelope result)) := by
  unfold handleToolCall
  rw [hfind]
  simp only [hexec, hkind]

/-- Dispatch lemma: a found Action tool that executes successfully
reports its usage and execution and returns nothing to resubmit. -/
theorem handleToolCall_action_ok (tools : List CuriosityTool) (call : Json)
    (t : CuriosityTool) (result : String)
    (hfind : tools.find? (toolNameMatches call) = some t)
    (hkind : t.kind = ToolKind.action)
    (hexec : t.exec (jsonGetField call "args") = Except.ok result) :
    handleToolCall tools call =
      ([Event.displayMsg Role.assistant (usingToolMsg t.name),
        Event.execTool t.name (jsonGetField call "args")], none) := by
  unfold handleToolCall
  rw [hfind]
  simp only [hexec, hkind]

/-- Dispatch lemma: a found tool whose execution fails reports the
per-capability error notice and returns nothing to resubmit. -/
theorem handleToolCall_exec_error (tools : List CuriosityTool) (call : Json)
    (t : CuriosityTool)
    (hfind : tools.find? (toolNameMatches call) = some t)
    (hexec : t.exec (jsonGetField call "args") = Except.error ()) :
    handleToolCall tools call =
      ([Event.displayMsg Role.assistant (usingToolMsg t.name),
        Event.execTool t.name (jsonGetField call "args"),
        Event.displayMsg Role.assistant (execErrorMsg t.name)], none) := by
  unfold handleToolCall
  rw [hfind]
  simp only [hexec]

/-- Equation lemma: one round with positive fuel resubmits through a
recursive round with one unit of fuel less. -/
theorem handleSendMessage_succ_eq (ctx : Ctx) (f : Nat) (st : State) (c : String) (r : Role) (b : Bool) :
    handleSendMessage ctx (Nat.succ f) st c r b =
      sendOnce ctx (fun st2 c2 => handleSendMessage ctx f st2 c2 Role.tool false) st c r b := rfl

/-- Every fuel value runs one round through `sendOnce` with some
continuation. -/
theorem handleSendMessage_single (ctx : Ctx) (fuel : Nat) (st : State) (c : String) (r : Role) (b : Bool) :
    ∃ recurse, handleSendMessage ctx fuel st c r b = sendOnce ctx recurse st c r b := by
  cases fuel with
  | zero => exact ⟨_, rfl⟩
  | succ f => exact ⟨_, rfl⟩

/-- The history passed to the backend always ends with the submitted
turn, so it is never empty. -/
theorem historyAfterSubmit_isEmpty_false (ctx : Ctx) (st : State) (content : String) (role : Role) :
    (historyAfterSubmit ctx st content role).isEmpty = false := by
  unfold historyAfterSubmit
  simp

/-- When the history is already nonempty, submitting only appends the
submitted turn (no system turn is inserted). -/
theorem historyAfterSubmit_of_nonempty (ctx : Ctx) (st : State) (content : String) (role : Role)
    (h : st.messages.isEmpty = false) :
    historyAfterSubmit ctx st content role = st.messages ++ [Message.mk role content] := by
  unfold historyAfterSubmit
  rw [h]
  simp

/-- The tool-response envelope is never the empty string. -/
theorem toolResponseEnvelope_ne_empty (result : String) : toolResponseEnvelope result ≠ "" := by
  intro h
  have hlen := congrArg String.length h
  simp only [toolResponseEnvelope, String.length_append] at hlen
  have h15 : ("<tool-response>" : String).length = 15 := by decide
  have h0 : ("" : String).length = 0 := by decide
  omega

/-- Progressive display updates contain no tool execution. -/
theorem execCalls_elementTexts (l : List String) : execCalls (l.map Event.elementText) = [] := by
  induction l with
  | nil => rfl
  | cons a l ih => simp [execCalls, List.filterMap_cons]

/-- Progressive display updates contain no backend call. -/
theorem backendCalls_elementTexts (l : List String) : backendCalls (l.map Event.elementText) = [] := by
  induction l with
  | nil => rfl
  | cons a l ih => simp [backendCalls, List.filterMap_cons]

/-- Tool executions distribute over event concatenation. -/
theorem execCalls_append (a b : List Event) : execCalls (a ++ b) = execCalls a ++ execCalls b := by
  simp [execCalls]

/-- A rendered message contributes no tool execution. -/
theorem execCalls_cons_display (r : Role) (s : String) (l : List Event) :
    execCalls (Event.displayMsg r s :: l) = execCalls l := by
  simp [execCalls]

/-- A display update contributes no tool execution. -/
theorem execCalls_cons_elementText (s : String) (l : List Event) :
    execCalls (Event.elementText s :: l) = execCalls l := by
  simp [execCalls]

/-- A placeholder removal contributes no tool execution. -/
theorem execCalls_cons_elementRemoved (l : List Event) :
    execCalls (Event.elementRemoved :: l) = execCalls l := by
  simp [execCalls]

/-- A backend call contributes no tool execution. -/
theorem execCalls_cons_callBackend (h : List Message) (l : List Event) :
    execCalls (Event.callBackend h :: l) = execCalls l := by
  simp [execCalls]

/-- A tool execution event is recorded. -/
theorem execCalls_cons_exec (n : String) (a : Option Json) (l : List Event) :
    execCalls (Event.execTool n a :: l) = (n, a) :: execCalls l := by
  simp [execCalls]

/-- Progressive display updates contain no tool execution. -/
theorem execCalls_progressEvents (chunks : List String) : execCalls (progressEvents chunks) = [] := by
  unfold progressEvents
  exact execCalls_elementTexts (runningTotals "" chunks)

/-- Backend calls distribute over event concatenation. -/
theorem backendCalls_append (a b : List Event) :
    backendCalls (a ++ b) = backendCalls a ++ backendCalls b := by
  simp [backendCalls]

/-- A rendered message contributes no backend call. -/
theorem backendCalls_cons_display (r : Role) (s : String) (l : List Event) :
    backendCalls (Event.displayMsg r s :: l) = backendCalls l := by
  simp [backendCalls]

/-- A display update contributes no backend call. -/
theorem backendCalls_cons_elementText (s : String) (l : List Event) :
    backendCalls (Event.elementText s :: l) = backendCalls l := by
  simp [backendCalls]

/-- A placeholder removal contributes no backend call. -/
theorem backendCalls_cons_elementRemoved (l : List Event) :
    backendCalls (Event.elementRemoved :: l) = backendCalls l := by
  simp [backendCalls]

/-- A backend call event is recorded. -/
theorem backendCalls_cons_callBackend (h : List Message) (l : List Event) :
    backendCalls (Event.callBackend h :: l) = h :: backendCalls l := by
  simp [backendCalls]

/-- A tool execution contributes no backend call. -/
theorem backendCalls_cons_exec (n : String) (a : Option Json) (l : List Event) :
    backendCalls (Event.execTool n a :: l) = backendCalls l := by
  simp [backendCalls]

/-- Progressive display updates contain no backend call. -/
theorem backendCalls_progressEvents (chunks : List String) :
    backendCalls (progressEvents chunks) = [] := by
  unfold progressEvents
  exact backendCalls_elementTexts (runningTotals "" chunks)

/-- The empty event list records no tool execution. -/
theorem execCalls_nil : execCalls [] = [] := rfl

/-- The empty event list records no backend call. -/
theorem backendCalls_nil : backendCalls [] = [] := rfl

/-! ## Claim theorems about single turns -/

/-- C3: a turn whose final text is classified Malformed emits the
distinct tool-error notice, performs exactly one backend call (no
further generation call for the turn), executes no tool, and leaves
the history exactly as it was before the response arrived — no
assistant, tool or other turn is appended for the malformed payload. -/
theorem malformed_aborts_turn (p : String → Option Json) (now : String)
    (st : State) (B : List Message → StreamOutcome)
    (content : String) (chunks : List String) (fuel : Nat)
    (hc : content ≠ "") (hB : st.aiBackend = some B)
    (hout : B (historyAfterSubmit ⟨p, now⟩ st content Role.user) = StreamOutcome.ok chunks)
    (hfail : tryParseToolCall p (joinChunks chunks) = ToolParseResult.failed) :
    handleSendMessage ⟨p, now⟩ fuel st content Role.user true =
      ({ st with messages := historyAfterSubmit ⟨p, now⟩ st content Role.user },
       Event.displayMsg Role.user content
         :: Event.callBackend (historyAfterSubmit ⟨p, now⟩ st content Role.user)
           :: progressEvents chunks ++ [Event.elementText malformedNoticeMsg])
    ∧ backendCalls (handleSendMessage ⟨p, now⟩ fuel st content Role.user true).2 =
        [historyAfterSubmit ⟨p, now⟩ st content Role.user]
    ∧ execCalls (handleSendMessage ⟨p, now⟩ fuel st content Role.user true).2 = [] := by
  obtain ⟨recurse, hr⟩ := handleSendMessage_single ⟨p, now⟩ fuel st content Role.user true
  rw [hr, sendOnce_malformed ⟨p, now⟩ recurse st content Role.user true B chunks hc hB hout hfail]
  refine ⟨by simp, ?_, ?_⟩
  · simp [backendCalls, List.filterMap_append, List.filterMap_cons, progressEvents,
      backendCalls_elementTexts]
  · simp [execCalls, List.filterMap_append, List.filterMap_cons, progressEvents,
      execCalls_elementTexts]

/-- Witness for C3: with a backend that answers with a malformed
payload, the turn aborts with the tool-error notice, one backend call,
no tool execution, and the history stops at the user turn. -/
theorem malformed_aborts_turn_witness :
    handleSendMessage ⟨fun _ => none, "T0"⟩ 1 (registerAIBackend (initState none) malformedBackend)
        "hi" Role.user true =
      ({ registerAIBackend (initState none) malformedBackend with
          messages := historyAfterSubmit ⟨fun _ => none, "T0"⟩
            (registerAIBackend (initState none) malformedBackend) "hi" Role.user },
       Event.displayMsg Role.user "hi"
         :: Event.callBackend (historyAfterSubmit ⟨fun _ => none, "T0"⟩
              (registerAIBackend (initState none) malformedBackend) "hi" Role.user)
           :: progressEvents [malformedText] ++ [Event.elementText malformedNoticeMsg]) := by
  exact (malformed_aborts_turn (fun _ => none) "T0"
    (registerAIBackend (initState none) malformedBackend) malformedBackend
    "hi" [malformedText] 1 (by decide) rfl rfl (by rfl)).1

/-- C8: a turn whose fragment stream raises a failure ends with the
generic failure notice, performs exactly one backend call, executes no
tool, and the partial concatenation is discarded — no assistant or
tool turn is appended, the history stops at the turns pushed before
the response. -/
theorem stream_failure_discards (p : String → Option Json) (now : String)
    (st : State) (B : List Message → StreamOutcome)
    (content : String) (chunks : List String) (fuel : Nat)
    (hc : content ≠ "") (hB : st.aiBackend = some B)
    (hout : B (historyAfterSubmit ⟨p, now⟩ st content Role.user) = StreamOutcome.fail chunks) :
    handleSendMessage ⟨p, now⟩ fuel st content Role.user true =
      ({ st with messages := historyAfterSubmit ⟨p, now⟩ st content Role.user },
       Event.displayMsg Role.user content
         :: Event.callBackend (historyAfterSubmit ⟨p, now⟩ st content Role.user)
           :: progressEvents chunks ++ [Event.elementText streamFailMsg])
    ∧ backendCalls (handleSendMessage ⟨p, now⟩ fuel st content Role.user true).2 =
        [historyAfterSubmit ⟨p, now⟩ st content Role.user]
    ∧ execCalls (handleSendMessage ⟨p, now⟩ fuel st content Role.user true).2 = [] := by
  obtain ⟨recurse, hr⟩ := handleSendMessage_single ⟨p, now⟩ fuel st content Role.user true
  rw [hr, sendOnce_streamFail ⟨p, now⟩ recurse st content Role.user true B chunks hc hB hout]
  refine ⟨by simp, ?_, ?_⟩
  · simp [backendCalls, List.filterMap_append, List.filterMap_cons, progressEvents,
      backendCalls_elementTexts]
  · simp [execCalls, List.filterMap_append, List.filterMap_cons, progressEvents,
      execCalls_elementTexts]

/-- Witness for C8: with a backend whose stream fails mid-way the turn
aborts with the generic failure notice and the partial text is not
recorded in the history. -/
theorem stream_failure_discards_witness :
    handleSendMessage ⟨fun _ => none, "T0"⟩ 1 (registerAIBackend (initState none) failingBackend)
        "hi" Role.user true =
      ({ registerAIBackend (initState none) failingBackend with
          messages := historyAfterSubmit ⟨fun _ => none, "T0"⟩
            (registerAIBackend (initState none) failingBackend) "hi" Role.user },
       Event.displayMsg Role.user "hi"
         :: Event.callBackend (historyAfterSubmit ⟨fun _ => none, "T0"⟩
              (registerAIBackend (initState none) failingBackend) "hi" Role.user)
           :: progressEvents ["partia"] ++ [Event.elementText streamFailMsg]) := by
  exact (stream_failure_discards (fun _ => none) "T0"
    (registerAIBackend (initState none) failingBackend) failingBackend
    "hi" ["partia"] 1 (by decide) rfl rfl).1

/-- C9: with no registered backend, a nonempty submission shows the
fixed notice and returns with the state — in particular the history —
completely unchanged: the submitted turn is not appended, no system
turn is inserted, and no stream is started. -/
theorem no_backend_guard (p : String → Option Json) (now : String)
    (st : State) (raw : String) (fuel : Nat)
    (hB : st.aiBackend = none) (hraw : jsTrim raw ≠ "") :
    stepOp ⟨p, now⟩ st (Op.submit raw fuel) =
      (st, [Event.displayMsg Role.user (jsTrim raw),
            Event.displayMsg Role.assistant noBackendMsg]) := by
  have hraw0 : raw ≠ "" := by
    intro h0
    rw [h0] at hraw
    exact hraw rfl
  have hbne : (raw != "") = true := bne_iff_ne.mpr hraw0
  obtain ⟨recurse, hr⟩ := handleSendMessage_single ⟨p, now⟩ fuel st (jsTrim raw) Role.user (raw != "")
  show handleSendMessage ⟨p, now⟩ fuel st (jsTrim raw) Role.user (raw != "") = _
  rw [hr, sendOnce_noBackend ⟨p, now⟩ recurse st (jsTrim raw) Role.user (raw != "") hraw hB, hbne]
  simp

/-- Witness for C9: submitting text to a fresh instance with no
backend leaves the fresh state untouched and shows the fixed notice. -/
theorem no_backend_guard_witness :
    stepOp ⟨fun _ => none, "T0"⟩ (initState none) (Op.submit "hello" 3) =
      (initState none,
       [Event.displayMsg Role.user (jsTrim "hello"),
        Event.displayMsg Role.assistant noBackendMsg]) := by
  exact no_backend_guard (fun _ => none) "T0" (initState none) "hello" 3 rfl (by decide)

/-- C4: a well-formed Request naming a registered Action capability
executes it exactly once with the decoded arguments, makes no second
backend call, and appends no new history turn; on success the usage
notice is emitted, and on execution failure the per-capability error
notice is emitted and the history is unchanged. -/
theorem action_dispatch (p : String → Option Json) (now : String)
    (st : State) (B : List Message → StreamOutcome)
    (content : String) (chunks : List String) (call : Json) (t : CuriosityTool) (fuel : Nat)
    (hc : content ≠ "") (hB : st.aiBackend = some B)
    (hout : B (historyAfterSubmit ⟨p, now⟩ st content Role.user) = StreamOutcome.ok chunks)
    (hreq : tryParseToolCall p (joinChunks chunks) = ToolParseResult.request call)
    (hfind : st.tools.find? (toolNameMatches call) = some t)
    (hkind : t.kind = ToolKind.action) :
    (∀ r, t.exec (jsonGetField call "args") = Except.ok r →
      (handleSendMessage ⟨p, now⟩ fuel st content Role.user true).1.messages =
          historyAfterSubmit ⟨p, now⟩ st content Role.user
      ∧ execCalls (handleSendMessage ⟨p, now⟩ fuel st content Role.user true).2 =
          [(t.name, jsonGetField call "args")]
      ∧ backendCalls (handleSendMessage ⟨p, now⟩ fuel st content Role.user true).2 =
          [historyAfterSubmit ⟨p, now⟩ st content Role.user]
      ∧ Event.displayMsg Role.assistant (usingToolMsg t.name)
          ∈ (handleSendMessage ⟨p, now⟩ fuel st content Role.user true).2)
    ∧ (t.exec (jsonGetField call "args") = Except.error () →
      (handleSendMessage ⟨p, now⟩ fuel st content Role.user true).1.messages =
          historyAfterSubmit ⟨p, now⟩ st content Role.user
      ∧ execCalls (handleSendMessage ⟨p, now⟩ fuel st content Role.user true).2 =
          [(t.name, jsonGetField call "args")]
      ∧ backendCalls (handleSendMessage ⟨p, now⟩ fuel st content Role.user true).2 =
          [historyAfterSubmit ⟨p, now⟩ st content Role.user]
      ∧ Event.displayMsg Role.assistant (execErrorMsg t.name)
          ∈ (handleSendMessage ⟨p, now⟩ fuel st content Role.user true).2) := by
  obtain ⟨recurse, hr⟩ := handleSendMessage_single ⟨p, now⟩ fuel st content Role.user true
  constructor
  · intro r hexec
    have hT := handleToolCall_action_ok st.tools call t r hfind hkind hexec
    rw [hr, sendOnce_request_done ⟨p, now⟩ recurse st content Role.user true B chunks call _
      hc hB hout hreq hT]
    refine ⟨by simp, ?_, ?_, by simp⟩
    · simp [execCalls, List.filterMap_append, List.filterMap_cons, progressEvents,
        execCalls_elementTexts]
    · simp [backendCalls, List.filterMap_append, List.filterMap_cons, progressEvents,
        backendCalls_elementTexts]
  · intro hexec
    have hT := handleToolCall_exec_error st.tools call t hfind hexec
    rw [hr, sendOnce_request_done ⟨p, now⟩ recurse st content Role.user true B chunks call _
      hc hB hout hreq hT]
    refine ⟨by simp, ?_, ?_, by simp⟩
    · simp [execCalls, List.filterMap_append, List.filterMap_cons, progressEvents,
        execCalls_elementTexts]
    · simp [backendCalls, List.filterMap_append, List.filterMap_cons, progressEvents,
        backendCalls_elementTexts]

/-- Witness for C4: the sample Action request executes the action
once with the decoded arguments, triggers no second backend call, and
appends no history turn. -/
theorem action_dispatch_witness :
    (handleSendMessage ⟨actionDecoder, "T0"⟩ 1 actionState "use the action tool" Role.user true).1.messages =
        historyAfterSubmit ⟨actionDecoder, "T0"⟩ actionState "use the action tool" Role.user
    ∧ execCalls (handleSendMessage ⟨actionDecoder, "T0"⟩ 1 actionState "use the action tool" Role.user true).2 =
        [(actionTool.name, jsonGetField actionCall "args")]
    ∧ backendCalls (handleSendMessage ⟨actionDecoder, "T0"⟩ 1 actionState "use the action tool" Role.user true).2 =
        [historyAfterSubmit ⟨actionDecoder, "T0"⟩ actionState "use the action tool" Role.user]
    ∧ Event.displayMsg Role.assistant (usingToolMsg actionTool.name)
        ∈ (handleSendMessage ⟨actionDecoder, "T0"⟩ 1 actionState "use the action tool" Role.user true).2 :=
  (action_dispatch actionDecoder "T0" actionState actionBackend "use the action tool"
    [actionRequestText] actionCall actionTool 1 (by decide) rfl rfl (by rfl) rfl rfl).1 "" rfl

/-- C2: a well-formed Request naming a registered Query capability
whose execution succeeds runs it exactly once with the decoded
arguments, appends exactly one tool-role turn holding the serialized
result wrapped in the tool-response envelope, and resubmits
automatically exactly once: the backend is called a second time — and
with the second response classified Plain, only twice — the second
time with a history that includes the tool turn. -/
theorem query_roundtrip (p : String → Option Json) (now : String)
    (st : State) (B : List Message → StreamOutcome)
    (content : String) (chunks1 chunks2 : List String) (call : Json)
    (t : CuriosityTool) (result : String) (fuel : Nat)
    (hc : content ≠ "") (hB : st.aiBackend = some B)
    (hout1 : B (historyAfterSubmit ⟨p, now⟩ st content Role.user) = StreamOutcome.ok chunks1)
    (hreq : tryParseToolCall p (joinChunks chunks1) = ToolParseResult.request call)
    (hfind : st.tools.find? (toolNameMatches call) = some t)
    (hkind : t.kind = ToolKind.query)
    (hexec : t.exec (jsonGetField call "args") = Except.ok result)
    (hout2 : B (historyAfterSubmit ⟨p, now⟩ st content Role.user
        ++ [Message.mk Role.tool (toolResponseEnvelope result)]) = StreamOutcome.ok chunks2)
    (hplain : tryParseToolCall p (joinChunks chunks2) = ToolParseResult.plain) :
    (handleSendMessage ⟨p, now⟩ (Nat.succ fuel) st content Role.user true).1.messages =
      historyAfterSubmit ⟨p, now⟩ st content Role.user
        ++ [Message.mk Role.tool (toolResponseEnvelope result),
            Message.mk Role.assistant (joinChunks chunks2)]
    ∧ execCalls (handleSendMessage ⟨p, now⟩ (Nat.succ fuel) st content Role.user true).2 =
        [(t.name, jsonGetField call "args")]
    ∧ backendCalls (handleSendMessage ⟨p, now⟩ (Nat.succ fuel) st content Role.user true).2 =
        [historyAfterSubmit ⟨p, now⟩ st content Role.user,
         historyAfterSubmit ⟨p, now⟩ st content Role.user
           ++ [Message.mk Role.tool (toolResponseEnvelope result)]] := by
  have hT := handleToolCall_query_ok st.tools call t result hfind hkind hexec
  have hst2 : ({ st with messages := historyAfterSubmit ⟨p, now⟩ st content Role.user } : State).messages.isEmpty = false :=
    historyAfterSubmit_isEmpty_false ⟨p, now⟩ st content Role.user
  have hhist2 : historyAfterSubmit ⟨p, now⟩
      ({ st with messages := historyAfterSubmit ⟨p, now⟩ st content Role.user } : State)
      (toolResponseEnvelope result) Role.tool =
      historyAfterSubmit ⟨p, now⟩ st content Role.user
        ++ [Message.mk Role.tool (toolResponseEnvelope result)] :=
    historyAfterSubmit_of_nonempty ⟨p, now⟩ _ (toolResponseEnvelope result) Role.tool hst2
  obtain ⟨recurse2, hr2⟩ := handleSendMessage_single ⟨p, now⟩ fuel
    { st with messages := historyAfterSubmit ⟨p, now⟩ st content Role.user }
    (toolResponseEnvelope result) Role.tool false
  have hinner : handleSendMessage ⟨p, now⟩ fuel
      { st with messages := historyAfterSubmit ⟨p, now⟩ st content Role.user }
      (toolResponseEnvelope result) Role.tool false =
      ({ st with messages := historyAfterSubmit ⟨p, now⟩ st content Role.user
          ++ [Message.mk Role.tool (toolResponseEnvelope result)]
          ++ [Message.mk Role.assistant (joinChunks chunks2)] },
       Event.callBackend (historyAfterSubmit ⟨p, now⟩ st content Role.user
          ++ [Message.mk Role.tool (toolResponseEnvelope result)])
         :: progressEvents chunks2) := by
    rw [hr2, sendOnce_plain ⟨p, now⟩ recurse2
      { st with messages := historyAfterSubmit ⟨p, now⟩ st content Role.user }
      (toolResponseEnvelope result) Role.tool false B chunks2
      (toolResponseEnvelope_ne_empty result)
      (show ({ st with messages := historyAfterSubmit ⟨p, now⟩ st content Role.user } : State).aiBackend = some B from hB)
      (by rw [hhist2]; exact hout2) hplain]
    rw [hhist2]
    simp
  rw [handleSendMessage_succ_eq,
    sendOnce_request_resubmit ⟨p, now⟩ _ st content Role.user true B chunks1 call _
      (toolResponseEnvelope result) hc hB hout1 hreq hT]
  simp only [hinner]
  refine ⟨by simp, ?_, ?_⟩
  · simp [execCalls_append, execCalls_cons_display, execCalls_cons_elementText,
      execCalls_cons_elementRemoved, execCalls_cons_callBackend, execCalls_cons_exec,
      execCalls_progressEvents, execCalls_nil]
  · simp [backendCalls_append, backendCalls_cons_display, backendCalls_cons_elementText,
      backendCalls_cons_elementRemoved, backendCalls_cons_callBackend, backendCalls_cons_exec,
      backendCalls_progressEvents, backendCalls_nil]

/-- Witness for C2: the sample Query request executes the query once,
appends exactly one tool turn carrying the enveloped serialized
result, and calls the backend exactly twice, the second time with the
tool turn included. -/
theorem query_roundtrip_witness :
    (handleSendMessage ⟨sampleDecoder, "T0"⟩ 1 queryState "use the query tool" Role.user true).1.messages =
      historyAfterSubmit ⟨sampleDecoder, "T0"⟩ queryState "use the query tool" Role.user
        ++ [Message.mk Role.tool (toolResponseEnvelope "some data"),
            Message.mk Role.assistant (joinChunks ["AI response after query"])]
    ∧ execCalls (handleSendMessage ⟨sampleDecoder, "T0"⟩ 1 queryState "use the query tool" Role.user true).2 =
        [(queryTool.name, jsonGetField sampleCall "args")]
    ∧ backendCalls (handleSendMessage ⟨sampleDecoder, "T0"⟩ 1 queryState "use the query tool" Role.user true).2 =
        [historyAfterSubmit ⟨sampleDecoder, "T0"⟩ queryState "use the query tool" Role.user,
         historyAfterSubmit ⟨sampleDecoder, "T0"⟩ queryState "use the query tool" Role.user
           ++ [Message.mk Role.tool (toolResponseEnvelope "some data")]] :=
  query_roundtrip sampleDecoder "T0" queryState queryBackend "use the query tool"
    [sampleRequestText] ["AI response after query"] sampleCall queryTool "some data" 0
    (by decide) rfl (by rfl) (by rfl) rfl rfl rfl (by rfl) (by rfl)

/-- C10: a final text containing both delimiter tokens but in which no
closing delimiter occurs after the first opening delimiter is
classified Plain rather than Malformed, and the full text, delimiter
tokens included, is appended as an ordinary assistant turn. -/
theorem unmatched_delims_plain (p : String → Option Json) (now : String)
    (st : State) (B : List Message → StreamOutcome)
    (content text : String) (chunks : List String) (fuel : Nat) (i : Nat)
    (hOpen : OPEN_DELIM <+: text.data.drop i)
    (hfirst : ∀ i2, i2 < i → ¬ OPEN_DELIM <+: text.data.drop i2)
    (hCloseSome : ∃ k, CLOSE_DELIM <+: text.data.drop k)
    (hnone : ∀ j, i + OPEN_DELIM.length ≤ j → ¬ CLOSE_DELIM <+: text.data.drop j)
    (hc : content ≠ "") (hB : st.aiBackend = some B)
    (hout : B (historyAfterSubmit ⟨p, now⟩ st content Role.user) = StreamOutcome.ok chunks)
    (hjoin : joinChunks chunks = text) :
    tryParseToolCall p text = ToolParseResult.plain
    ∧ (handleSendMessage ⟨p, now⟩ fuel st content Role.user true).1.messages =
        historyAfterSubmit ⟨p, now⟩ st content Role.user ++ [Message.mk Role.assistant text] := by
  obtain ⟨t, ht⟩ := hOpen
  have htdrop : t = (text.data.drop i).drop OPEN_DELIM.length := by
    rw [← ht, List.drop_left]
  have hs : text.data = text.data.take i ++ OPEN_DELIM ++ t := by
    conv_lhs => rw [← List.take_append_drop i text.data]
    rw [← ht]
    simp [List.append_assoc]
  have hmin' : ∀ i2, i2 < (text.data.take i).length → ¬ OPEN_DELIM <+: text.data.drop i2 := by
    intro i2 h2
    refine hfirst i2 ?_
    have := List.length_take i text.data
    omega
  have hO : splitFirst OPEN_DELIM text.data = some (text.data.take i, t) :=
    splitFirst_spec OPEN_DELIM open_delim_ne_nil text.data (text.data.take i) t hs hmin'
  have hCnone : splitFirst CLOSE_DELIM t = none := by
    cases hq : splitFirst CLOSE_DELIM t with
    | none => rfl
    | some pr =>
      exfalso
      obtain ⟨x, y⟩ := pr
      have hocc := splitFirst_occur CLOSE_DELIM t x y hq
      rw [htdrop, List.drop_drop, List.drop_drop] at hocc
      exact hnone (i + (OPEN_DELIM.length + x.length)) (by omega) hocc
  have htext : text ≠ "" := by
    intro h0
    subst h0
    have hnil : List.drop i (String.data "") = [] := by simp
    rw [hnil] at ht
    have hlen := congrArg List.length ht
    simp only [List.length_append, List.length_nil] at hlen
    have h14 : OPEN_DELIM.length = 14 := by decide
    omega
  have hplain : tryParseToolCall p text = ToolParseResult.plain := by
    obtain ⟨prC, hCval⟩ := Option.isSome_iff_exists.mp
      ((splitFirst_isSome_iff CLOSE_DELIM close_delim_ne_nil text.data).mpr hCloseSome)
    unfold tryParseToolCall
    rw [if_neg htext, hO, hCval]
    simp [hCnone]
  refine ⟨hplain, ?_⟩
  obtain ⟨recurse, hr⟩ := handleSendMessage_single ⟨p, now⟩ fuel st content Role.user true
  rw [hr, sendOnce_plain ⟨p, now⟩ recurse st content Role.user true B chunks hc hB hout
    (by rw [hjoin]; exact hplain)]
  simp [hjoin]

/-- Witness for C10: the sample text whose delimiters appear only in
the wrong order is Plain and lands as an assistant turn. -/
theorem unmatched_delims_plain_witness :
    tryParseToolCall (fun _ => none) c10Text = ToolParseResult.plain
    ∧ (handleSendMessage ⟨fun _ => none, "T0"⟩ 1
          (registerAIBackend (initState none) c10Backend) "hi" Role.user true).1.messages =
        historyAfterSubmit ⟨fun _ => none, "T0"⟩
            (registerAIBackend (initState none) c10Backend) "hi" Role.user
          ++ [Message.mk Role.assistant c10Text] :=
  unmatched_delims_plain (fun _ => none) "T0" (registerAIBackend (initState none) c10Backend)
    c10Backend "hi" c10Text [c10Text] 1 (String.data "[END_TOOL_REQUEST] hi ").length
    (splitFirst_occur OPEN_DELIM c10Text.data (String.data "[END_TOOL_REQUEST] hi ") [] (by rfl))
    (splitFirst_min OPEN_DELIM c10Text.data (String.data "[END_TOOL_REQUEST] hi ") [] (by rfl))
    ⟨0, String.data " hi [TOOL_REQUEST]", by decide⟩
    (no_occur_from CLOSE_DELIM close_delim_ne_nil c10Text.data
      ((String.data "[END_TOOL_REQUEST] hi ").length + OPEN_DELIM.length) (by rfl))
    (by decide) rfl rfl (by rfl)

/-- Witness for C1: the sample delimited text is classified as a
Request carrying the decoded object. -/
theorem extractor_classifies_witness :
    tryParseToolCall sampleDecoder sampleRequestText = ToolParseResult.request sampleCall := by
  have h := (extractor_classifies sampleDecoder sampleRequestText).2
    [] sampleInnerText.data [] (by decide)
    (by intro i hi; exact absurd hi (by simp))
    (splitFirst_min CLOSE_DELIM (sampleInnerText.data ++ CLOSE_DELIM ++ []) sampleInnerText.data [] (by decide))
  exact h.2.2.2 sampleCall rfl (by decide) rfl

/-! ## Registry and prompt builder (claims C5 and C6) -/

/-- Name search through the registry coincides with search through
the name list. -/
theorem tools_any_name (l : List CuriosityTool) (n : String) :
    (l.map CuriosityTool.name).any (fun s => s == n) = l.any (fun t0 => t0.name == n) := by
  induction l with
  | nil => rfl
  | cons a l ih => simp [List.any_cons, ih]

/-- The registry after a sequence of registrations keeps, in order,
each attempt whose name was not previously present. -/
theorem foldRegister_tools : ∀ (regs : List CuriosityTool) (st : State),
    (foldRegister st regs).tools =
      st.tools ++ firstRegistrationsAux (st.tools.map CuriosityTool.name) regs := by
  intro regs
  induction regs with
  | nil => intro st; simp [foldRegister, firstRegistrationsAux]
  | cons t rest ih =>
    intro st
    show (foldRegister (registerTool st t).1 rest).tools = _
    have hany : (st.tools.map CuriosityTool.name).any (fun s => s == t.name) =
        st.tools.any (fun t0 => t0.name == t.name) := tools_any_name st.tools t.name
    by_cases hdup : st.tools.any (fun t0 => t0.name == t.name) = true
    · have h1 : (registerTool st t).1 = st := by
        simp [registerTool, hdup]
      rw [h1, ih st]
      simp [firstRegistrationsAux, hany, hdup]
    · have hdup' : st.tools.any (fun t0 => t0.name == t.name) = false :=
        Bool.eq_false_iff.mpr hdup
      have h1 : (registerTool st t).1 =
          { st with tools := st.tools ++ [t], toolsPrompt := st.toolsPrompt ++ toolDefinition t } := by
        simp [registerTool, hdup']
      rw [h1, ih]
      simp [firstRegistrationsAux, hany, hdup', List.map_append, List.append_assoc]

/-- The accumulated tools prompt is exactly the concatenation of one
descriptor per retained registration, in order. -/
theorem foldRegister_toolsPrompt : ∀ (regs : List CuriosityTool) (st : State),
    (foldRegister st regs).toolsPrompt =
      st.toolsPrompt
        ++ joinAll ((firstRegistrationsAux (st.tools.map CuriosityTool.name) regs).map toolDefinition) := by
  intro regs
  induction regs with
  | nil => intro st; simp [foldRegister, firstRegistrationsAux, joinAll]
  | cons t rest ih =>
    intro st
    show (foldRegister (registerTool st t).1 rest).toolsPrompt = _
    have hany : (st.tools.map CuriosityTool.name).any (fun s => s == t.name) =
        st.tools.any (fun t0 => t0.name == t.name) := tools_any_name st.tools t.name
    by_cases hdup : st.tools.any (fun t0 => t0.name == t.name) = true
    · have h1 : (registerTool st t).1 = st := by
        simp [registerTool, hdup]
      rw [h1, ih st]
      simp [firstRegistrationsAux, hany, hdup]
    · have hdup' : st.tools.any (fun t0 => t0.name == t.name) = false :=
        Bool.eq_false_iff.mpr hdup
      have h1 : (registerTool st t).1 =
          { st with tools := st.tools ++ [t], toolsPrompt := st.toolsPrompt ++ toolDefinition t } := by
        simp [registerTool, hdup']
      rw [h1, ih]
      simp [firstRegistrationsAux, hany, hdup', List.map_append, joinAll, String.append_assoc]

/-- Registration changes neither the base prompt nor the backend nor
the history. -/
theorem foldRegister_rest : ∀ (regs : List CuriosityTool) (st : State),
    (foldRegister st regs).basePrompt = st.basePrompt
    ∧ (foldRegister st regs).aiBackend = st.aiBackend
    ∧ (foldRegister st regs).messages = st.messages := by
  intro regs
  induction regs with
  | nil => intro st; exact ⟨rfl, rfl, rfl⟩
  | cons t rest ih =>
    intro st
    simp only [foldRegister]
    by_cases hdup : st.tools.any (fun t0 => t0.name == t.name) = true
    · have h1 : (registerTool st t).1 = st := by simp [registerTool, hdup]
      rw [h1]
      exact ih st
    · have hdup' : st.tools.any (fun t0 => t0.name == t.name) = false :=
        Bool.eq_false_iff.mpr hdup
      have h1 : (registerTool st t).1 =
          { st with tools := st.tools ++ [t], toolsPrompt := st.toolsPrompt ++ toolDefinition t } := by
        simp [registerTool, hdup']
      rw [h1]
      exact ih _

/-- Fold of registrations splits over concatenation. -/
theorem foldRegister_append (a b : List CuriosityTool) : ∀ st : State,
    foldRegister st (a ++ b) = foldRegister (foldRegister st a) b := by
  induction a with
  | nil => intro st; rfl
  | cons t rest ih => intro st; exact ih (registerTool st t).1

/-- Filtering the retained registrations by a name yields the first
attempted registration carrying that name, unless the name was
already seen. -/
theorem firstRegistrationsAux_filter (n : String) : ∀ (regs : List CuriosityTool) (seen : List String),
    (firstRegistrationsAux seen regs).filter (fun t0 => t0.name == n) =
      if seen.any (fun s => s == n) then [] else (regs.filter (fun t0 => t0.name == n)).take 1 := by
  intro regs
  induction regs with
  | nil =>
    intro seen
    by_cases h : seen.any (fun s => s == n) = true <;> simp [firstRegistrationsAux, h]
  | cons t rest ih =>
    intro seen
    by_cases hdup : seen.any (fun s => s == t.name) = true
    · by_cases hn : t.name = n
      · have hseen : seen.any (fun s => s == n) = true := by rw [← hn]; exact hdup
        simp [firstRegistrationsAux, hdup, ih, hseen]
      · have hfilter : (t :: rest).filter (fun t0 => t0.name == n) =
            rest.filter (fun t0 => t0.name == n) := by
          simp [List.filter_cons, hn]
        simp only [firstRegistrationsAux, hdup, if_true, ih, hfilter]
    · have hdup' : seen.any (fun s => s == t.name) = false := Bool.eq_false_iff.mpr hdup
      by_cases hn : t.name = n
      · subst hn
        have hseen' : (seen ++ [t.name]).any (fun s => s == t.name) = true := by
          simp
        simp [firstRegistrationsAux, hdup', List.filter_cons, ih, hseen', List.take]
      · have hnb : (t.name == n) = false := by
          simp [hn]
        have hseen2 : (seen ++ [t.name]).any (fun s => s == n) = seen.any (fun s => s == n) := by
          simp [List.any_append, hnb]
        simp [firstRegistrationsAux, hdup', List.filter_cons, hnb, ih, hseen2]

/-- C5: every read of the `systemPrompt` getter is recomputed from the
current registry: after any sequence of registrations it equals the
base prompt, followed — exactly when at least one capability is
registered — by the usage section and one descriptor per retained
capability in registration order, followed by the timestamp marker;
and the registry holds exactly the first registration of each name, in
order. -/
theorem prompt_reflects_registry (customPrompt : Option String) (regs : List CuriosityTool) (now : String) :
    (foldRegister (initState customPrompt) regs).tools = firstRegistrations regs
    ∧ systemPromptGet (foldRegister (initState customPrompt) regs) now =
        (initState customPrompt).basePrompt
          ++ (if (firstRegistrations regs).isEmpty then ""
              else toolUsagePromptSection ++ joinAll ((firstRegistrations regs).map toolDefinition))
          ++ ("<today>" ++ now ++ "</today>") := by
  have htools : (foldRegister (initState customPrompt) regs).tools = firstRegistrations regs := by
    rw [foldRegister_tools]
    rfl
  refine ⟨htools, ?_⟩
  have hprompt : (foldRegister (initState customPrompt) regs).toolsPrompt =
      joinAll ((firstRegistrations regs).map toolDefinition) := by
    rw [foldRegister_toolsPrompt]
    rfl
  have hbase : (foldRegister (initState customPrompt) regs).basePrompt =
      (initState customPrompt).basePrompt := (foldRegister_rest regs _).1
  unfold systemPromptGet constructSystemPrompt
  rw [htools, hprompt, hbase]
  cases hcase : firstRegistrations regs with
  | nil => simp [String.append_assoc]
  | cons a l => simp [String.append_assoc]

/-- C6: registering a capability whose name is already present is a
no-op apart from the warning signal: the state — registry, tools list
length, and prompt sections — is unchanged, and afterwards the
registry holds exactly one entry for that name, namely the first
attempted registration carrying it. -/
theorem duplicate_registration_noop (customPrompt : Option String) (regs : List CuriosityTool)
    (t : CuriosityTool)
    (h : (foldRegister (initState customPrompt) regs).tools.any (fun t0 => t0.name == t.name) = true) :
    registerTool (foldRegister (initState customPrompt) regs) t =
      (foldRegister (initState customPrompt) regs, [Event.consoleWarn (dupWarnMsg t.name)])
    ∧ ((foldRegister (initState customPrompt) (regs ++ [t])).tools.filter
        (fun t0 => t0.name == t.name)).length = 1
    ∧ (foldRegister (initState customPrompt) (regs ++ [t])).tools.filter
        (fun t0 => t0.name == t.name) =
        (regs.filter (fun t0 => t0.name == t.name)).take 1 := by
  have hreg : registerTool (foldRegister (initState customPrompt) regs) t =
      (foldRegister (initState customPrompt) regs, [Event.consoleWarn (dupWarnMsg t.name)]) := by
    unfold registerTool
    rw [if_pos h]
  have hsplit : foldRegister (initState customPrompt) (regs ++ [t]) =
      foldRegister (initState customPrompt) regs := by
    rw [foldRegister_append]
    show foldRegister (registerTool (foldRegister (initState customPrompt) regs) t).1 [] = _
    rw [hreg]
    rfl
  have hfilter : (foldRegister (initState customPrompt) regs).tools.filter
      (fun t0 => t0.name == t.name) = (regs.filter (fun t0 => t0.name == t.name)).take 1 := by
    rw [foldRegister_tools]
    have := firstRegistrationsAux_filter t.name regs []
    simpa using this
  refine ⟨hreg, ?_, by rw [hsplit]; exact hfilter⟩
  rw [hsplit, hfilter]
  cases hcase : regs.filter (fun t0 => t0.name == t.name) with
  | cons a l => simp
  | nil =>
    exfalso
    obtain ⟨x, hx, hpx⟩ := List.any_eq_true.mp h
    have hxf : x ∈ (foldRegister (initState customPrompt) regs).tools.filter
        (fun t0 => t0.name == t.name) := List.mem_filter.mpr ⟨hx, hpx⟩
    rw [hfilter, hcase] at hxf
    simp at hxf

/-- Witness for C6: registering a second tool named `doAction` warns,
leaves the state unchanged, and the registry keeps exactly the first
`doAction` registration. -/
theorem duplicate_registration_noop_witness :
    registerTool (foldRegister (initState none) [actionTool]) actionToolClone =
      (foldRegister (initState none) [actionTool], [Event.consoleWarn (dupWarnMsg actionToolClone.name)])
    ∧ ((foldRegister (initState none) ([actionTool] ++ [actionToolClone])).tools.filter
        (fun t0 => t0.name == actionToolClone.name)).length = 1
    ∧ (foldRegister (initState none) ([actionTool] ++ [actionToolClone])).tools.filter
        (fun t0 => t0.name == actionToolClone.name) =
        ([actionTool].filter (fun t0 => t0.name == actionToolClone.name)).take 1 :=
  duplicate_registration_noop none [actionTool] actionToolClone (by rfl)

/-! ## History invariants (claim C7) -/

/-- The submitted turn extends the prior history: the prior turns form
a prefix of what the backend receives. -/
theorem prefix_historyAfterSubmit (ctx : Ctx) (st : State) (content : String) (role : Role) :
    st.messages <+: historyAfterSubmit ctx st content role := by
  unfold historyAfterSubmit
  cases he : st.messages.isEmpty with
  | false =>
    simp only [he, Bool.false_eq_true, if_false]
    exact List.prefix_append _ _
  | true =>
    have hnil : st.messages = [] := List.isEmpty_iff.mp he
    rw [hnil]
    exact List.nil_prefix

/-- One orchestrator round only appends to the history, provided the
continuation does. -/
theorem sendOnce_prefix (ctx : Ctx) (recurse : State → String → State × List Event)
    (st : State) (content : String) (role : Role) (inb : Bool)
    (hrec : ∀ st2 c2, st2.messages <+: (recurse st2 c2).1.messages) :
    st.messages <+: (sendOnce ctx recurse st content role inb).1.messages := by
  by_cases hc : content = ""
  · rw [hc, sendOnce_empty]
  · cases hb : st.aiBackend with
    | none =>
      rw [sendOnce_noBackend ctx recurse st content role inb hc hb]
    | some backend =>
      have hpre := prefix_historyAfterSubmit ctx st content role
      cases houtc : backend (historyAfterSubmit ctx st content role) with
      | fail chunks =>
        rw [sendOnce_streamFail ctx recurse st content role inb backend chunks hc hb houtc]
        exact hpre
      | ok chunks =>
        cases hparse : tryParseToolCall ctx.parseJson (joinChunks chunks) with
        | plain =>
          rw [sendOnce_plain ctx recurse st content role inb backend chunks hc hb houtc hparse]
          exact hpre.trans (List.prefix_append _ _)
        | failed =>
          rw [sendOnce_malformed ctx recurse st content role inb backend chunks hc hb houtc hparse]
          exact hpre
        | request call =>
          cases hT : handleToolCall st.tools call with
          | mk evT osub =>
            cases osub with
            | none =>
              rw [sendOnce_request_done ctx recurse st content role inb backend chunks call evT
                hc hb houtc hparse hT]
              exact hpre
            | some c2 =>
              rw [sendOnce_request_resubmit ctx recurse st content role inb backend chunks call evT c2
                hc hb houtc hparse hT]
              exact hpre.trans
                (hrec { st with messages := historyAfterSubmit ctx st content role } c2)

/-- Any bounded run of `handleSendMessage` only appends to the
history. -/
theorem handleSendMessage_prefix (ctx : Ctx) : ∀ (fuel : Nat) (st : State) (c : String) (r : Role) (b : Bool),
    st.messages <+: (handleSendMessage ctx fuel st c r b).1.messages := by
  intro fuel
  induction fuel with
  | zero =>
    intro st c r b
    exact sendOnce_prefix ctx _ st c r b (fun st2 c2 => List.prefix_refl _)
  | succ f ih =>
    intro st c r b
    exact sendOnce_prefix ctx _ st c r b (fun st2 c2 => ih st2 c2 Role.tool false)

/-- Every externally triggered operation only appends to the
history. -/
theorem stepOp_prefix (ctx : Ctx) (st : State) (op : Op) :
    st.messages <+: (stepOp ctx st op).1.messages := by
  cases op with
  | regTool t =>
    show st.messages <+: (registerTool st t).1.messages
    unfold registerTool
    split
    · exact List.prefix_refl _
    · exact List.prefix_refl _
  | regBackend b => exact List.prefix_refl _
  | submit raw fuel => exact handleSendMessage_prefix ctx fuel st (jsTrim raw) Role.user (raw != "")

/-- Appending a non-system turn to a nonempty well-formed history
keeps it well-formed. -/
theorem historyWF_append (ms : List Message) (m : Message)
    (h : historyWF ms) (hm : m.role ≠ Role.system) (hne : ms ≠ []) :
    historyWF (ms ++ [m]) := by
  rcases h with hnil | ⟨c, u, rest, hms, hall⟩
  · exact absurd hnil hne
  · refine Or.inr ⟨c, u, rest ++ [m], by rw [hms]; simp, ?_⟩
    intro x hx
    rcases List.mem_cons.mp hx with hx1 | hx2
    · subst hx1
      exact hall _ (by simp)
    · rcases List.mem_append.mp hx2 with hx3 | hx4
      · exact hall _ (by simp [hx3])
      · rw [List.mem_singleton.mp hx4]
        exact hm

/-- The history passed to the backend is well-formed whenever the
submitted role is the operator's user role or the history already has
its first turns. -/
theorem historyWF_historyAfterSubmit (ctx : Ctx) (st : State) (content : String) (role : Role)
    (h : historyWF st.messages)
    (hrole : role = Role.user ∨ st.messages ≠ [])
    (hns : role ≠ Role.system) :
    historyWF (historyAfterSubmit ctx st content role) := by
  unfold historyAfterSubmit
  cases he : st.messages.isEmpty with
  | true =>
    have hnil : st.messages = [] := List.isEmpty_iff.mp he
    rcases hrole with hu | hne
    · subst hu
      rw [hnil]
      exact Or.inr ⟨constructSystemPrompt st ctx.now, content, [], rfl, by
        intro m hm
        rw [List.mem_singleton.mp hm]
        simp⟩
    · exact absurd hnil hne
  | false =>
    simp only [he, Bool.false_eq_true, if_false]
    exact historyWF_append st.messages ⟨role, content⟩ h hns
      (fun hnil => by rw [hnil] at he; simp at he)

/-- The history after the submitted turn is never empty. -/
theorem historyAfterSubmit_ne_nil (ctx : Ctx) (st : State) (content : String) (role : Role) :
    historyAfterSubmit ctx st content role ≠ [] := by
  unfold historyAfterSubmit
  simp

/-- One orchestrator round preserves well-formedness of the history,
provided the continuation does so from nonempty well-formed
histories. -/
theorem sendOnce_WF (ctx : Ctx) (recurse : State → String → State × List Event)
    (st : State) (content : String) (role : Role) (inb : Bool)
    (hrec : ∀ st2 c2, historyWF st2.messages → st2.messages ≠ [] →
      historyWF (recurse st2 c2).1.messages)
    (h : historyWF st.messages)
    (hrole : role = Role.user ∨ st.messages ≠ [])
    (hns : role ≠ Role.system) :
    historyWF (sendOnce ctx recurse st content role inb).1.messages := by
  have hWFhist := historyWF_historyAfterSubmit ctx st content role h hrole hns
  by_cases hc : content = ""
  · rw [hc, sendOnce_empty]
    exact h
  · cases hb : st.aiBackend with
    | none =>
      rw [sendOnce_noBackend ctx recurse st content role inb hc hb]
      exact h
    | some backend =>
      cases houtc : backend (historyAfterSubmit ctx st content role) with
      | fail chunks =>
        rw [sendOnce_streamFail ctx recurse st content role inb backend chunks hc hb houtc]
        exact hWFhist
      | ok chunks =>
        cases hparse : tryParseToolCall ctx.parseJson (joinChunks chunks) with
        | plain =>
          rw [sendOnce_plain ctx recurse st content role inb backend chunks hc hb houtc hparse]
          exact historyWF_append _ _ hWFhist (by simp)
            (historyAfterSubmit_ne_nil ctx st content role)
        | failed =>
          rw [sendOnce_malformed ctx recurse st content role inb backend chunks hc hb houtc hparse]
          exact hWFhist
        | request call =>
          cases hT : handleToolCall st.tools call with
          | mk evT osub =>
            cases osub with
            | none =>
              rw [sendOnce_request_done ctx recurse st content role inb backend chunks call evT
                hc hb houtc hparse hT]
              exact hWFhist
            | some c2 =>
              rw [sendOnce_request_resubmit ctx recurse st content role inb backend chunks call evT c2
                hc hb houtc hparse hT]
              exact hrec _ c2 hWFhist (historyAfterSubmit_ne_nil ctx st content role)

/-- Any bounded run of `handleSendMessage` preserves well-formedness
of the history. -/
theorem handleSendMessage_WF (ctx : Ctx) : ∀ (fuel : Nat) (st : State) (c : String) (r : Role) (b : Bool),
    historyWF st.messages → (r = Role.user ∨ st.messages ≠ []) → r ≠ Role.system →
    historyWF (handleSendMessage ctx fuel st c r b).1.messages := by
  intro fuel
  induction fuel with
  | zero =>
    intro st c r b h hrole hns
    exact sendOnce_WF ctx _ st c r b (fun st2 c2 h2 _ => h2) h hrole hns
  | succ f ih =>
    intro st c r b h hrole hns
    exact sendOnce_WF ctx _ st c r b
      (fun st2 c2 h2 hne2 => ih st2 c2 Role.tool false h2 (Or.inr hne2) (by simp)) h hrole hns

/-- Every externally triggered operation preserves well-formedness of
the history. -/
theorem stepOp_WF (ctx : Ctx) (st : State) (op : Op) (h : historyWF st.messages) :
    historyWF (stepOp ctx st op).1.messages := by
  cases op with
  | regTool t =>
    show historyWF (registerTool st t).1.messages
    unfold registerTool
    split
    · exact h
    · exact h
  | regBackend b => exact h
  | submit raw fuel =>
    exact handleSendMessage_WF ctx fuel st (jsTrim raw) Role.user (raw != "") h (Or.inl rfl) (by simp)

/-- Runs from a well-formed history stay well-formed. -/
theorem runOps_WF (ctx : Ctx) : ∀ (ops : List Op) (st : State),
    historyWF st.messages → historyWF (runOps ctx st ops).messages := by
  intro ops
  induction ops with
  | nil => intro st h; exact h
  | cons op rest ih =>
    intro st h
    exact ih _ (stepOp_WF ctx st op h)

/-- C7: across every sequence of operations, the history is
append-only — every further operation extends the reached history at
the end, never reordering, editing or removing existing turns — and it
is well-formed: whenever it is nonempty, its first turn is the unique
system turn, inserted immediately before the first user turn. -/
theorem history_append_only (customPrompt : Option String) (p : String → Option Json)
    (now : String) (ops : List Op) :
    historyWF (runOps ⟨p, now⟩ (initState customPrompt) ops).messages
    ∧ ∀ op, (runOps ⟨p, now⟩ (initState customPrompt) ops).messages <+:
        (stepOp ⟨p, now⟩ (runOps ⟨p, now⟩ (initState customPrompt) ops) op).1.messages := by
  constructor
  · exact runOps_WF ⟨p, now⟩ ops (initState customPrompt) (Or.inl rfl)
  · intro op
    exact stepOp_prefix ⟨p, now⟩ _ op

end Curiosity
